import Mathlib

/-!
Verification of the PackHelper compile-time type-sequence library
(`include/core/Pack.h`, `include/core/Traits.h`).

A template parameter pack `PackTypes...` is embedded as a `List α` of opaque
type tokens compared by exact identity (`DecidableEq α`).  `size_t` values are
embedded as `Nat` with arithmetic reduced modulo `2^64` where the source can
overflow; the sentinel `NotFound = static_cast<size_t>(-1)` is `2^64 - 1`.
-/

namespace packhelp

/-- Embedding of `constexpr size_t NotFound = static_cast<size_t>(-1)`:
the all-bits-set maximum of the 64-bit unsigned index type. -/
def NotFound : Nat := 2 ^ 64 - 1

/-- Embedding of `Size_native<PackTypes...>::Value = sizeof...(PackTypes)`. -/
def Size_native {α : Type} (ts : List α) : Nat := ts.length

/-- Static-assertion status of instantiating `At_native<Index, PackTypes...>`.
The source has three specializations: the empty base case carries
`static_assert(Index == NotFound, ...)`; the `Index = 0` non-empty case and the
recursive case (which inherits `At_native<Index - 1, Tail...>`) carry no
assertion of their own.  `true` means every `static_assert` met during the
recursive instantiation holds (the build succeeds as far as assertions go);
`false` means instantiation triggers the out-of-bounds diagnostic. -/
def At_native_assert {α : Type} : Nat → List α → Bool
  | i, [] => decide (i = NotFound)
  | 0, _ :: _ => true
  | i + 1, _ :: tail => At_native_assert i tail

/-- The `Type` member exposed by `At_native<Index, PackTypes...>`:
`Head` when `Index = 0` on a non-empty pack, the tail's result in the
recursive case (inherited from `At_native<Index - 1, Tail...>`), and absent
(`none`) in the empty base case, which defines no `Type` member. -/
def At_native_type {α : Type} : Nat → List α → Option α
  | _, [] => none
  | 0, head :: _ => some head
  | i + 1, _ :: tail => At_native_type i tail

/-- Embedding of `Has_native<Type, PackTypes...>::Value`: `false` on the empty
pack; `true` when `std::same_as<Type, Head>`; otherwise inherited from
`Has_native<Type, Tail...>`. -/
def Has_native {α : Type} [DecidableEq α] (x : α) : List α → Bool
  | [] => false
  | head :: tail => if x = head then true else Has_native x tail

namespace internal

/-- Embedding of `internal::_Find_native<Counter, Type, PackTypes...>::Value`:
`NotFound` on the empty pack; `Counter` when `std::same_as<Type, Head>`;
otherwise inherited from `_Find_native<Counter + 1, Type, Tail...>` with the
`size_t` counter increment taken modulo `2^64`. -/
def FindNativeImpl {α : Type} [DecidableEq α] (counter : Nat) (x : α) :
    List α → Nat
  | [] => NotFound
  | head :: tail =>
      if x = head then counter
      else FindNativeImpl ((counter + 1) % 2 ^ 64) x tail

end internal

/-- Embedding of `Find_native<Type, PackTypes...> =
internal::_Find_native<0, Type, PackTypes...>`. -/
def Find_native {α : Type} [DecidableEq α] (x : α) (ts : List α) : Nat :=
  internal.FindNativeImpl 0 x ts

/-- Embedding of `Unique_native<PackTypes...>::Value`: `true` on the empty and
one-element packs; `false` when the first two types satisfy `std::same_as`;
otherwise the conjunction `Unique_native<TypeA, Rest...>::Value &&
Unique_native<TypeB, Rest...>::Value`. -/
def Unique_native {α : Type} [DecidableEq α] : List α → Bool
  | [] => true
  | [_] => true
  | a :: b :: rest =>
      if a = b then false
      else Unique_native (a :: rest) && Unique_native (b :: rest)
termination_by l => l.length
decreasing_by
  all_goals simp [List.length_cons]

/-- Concrete token universe used for witnesses: a few C++ scalar types plus
lvalue/rvalue reference qualification.  Two tokens are identical exactly when
they are syntactically the same type, mirroring `std::same_as`. -/
inductive Tok where
  | bool | char | short | int | long | longlong | float | double | void
  | ref : Tok → Tok
  | rref : Tok → Tok
deriving DecidableEq

/-- A C++ type as seen by the wrapped (Pack-taking) traits: either some
non-`Pack` scalar type, a genuine `packhelp::Pack<Ts...>`, or the test
harness's structurally similar variadic template `internal::NotAPack<Ts...>`
(`testcases/TestCases.h`). -/
inductive Cxx (α : Type) where
  | scalar : α → Cxx α
  | pack : List α → Cxx α
  | notAPack : List α → Cxx α

/-- Embedding of the `IsPack` trait: the partial specialization
`IsPack<Pack<PackTypes...>>` has `Value = true`; the primary template
matching every other type has `Value = false`. -/
def IsPack {α : Type} : Cxx α → Bool
  | Cxx.pack _ => true
  | _ => false

/-- Embedding of `Size<Pack<PackTypes...>> : Size_native<PackTypes...>`;
the primary `Size` template is declared but undefined for non-`Pack`
arguments, so those instantiations have no `Value` (`none`). -/
def Size {α : Type} : Cxx α → Option Nat
  | Cxx.pack ts => some (Size_native ts)
  | _ => none

/-- Embedding of `At<Index, Pack<PackTypes...>> : At_native<Index, PackTypes...>`,
which inherits both the assertion status and the (possibly absent) `Type`
member; undefined (`none`) for non-`Pack` arguments. -/
def At {α : Type} (i : Nat) : Cxx α → Option (Bool × Option α)
  | Cxx.pack ts => some (At_native_assert i ts, At_native_type i ts)
  | _ => none

/-- Embedding of `Has<Type, Pack<PackTypes...>> : Has_native<Type, PackTypes...>`;
undefined (`none`) for non-`Pack` arguments. -/
def Has {α : Type} [DecidableEq α] (x : α) : Cxx α → Option Bool
  | Cxx.pack ts => some (Has_native x ts)
  | _ => none

/-- Embedding of `Find<Type, Pack<PackTypes...>> : Find_native<Type, PackTypes...>`;
undefined (`none`) for non-`Pack` arguments. -/
def Find {α : Type} [DecidableEq α] (x : α) : Cxx α → Option Nat
  | Cxx.pack ts => some (Find_native x ts)
  | _ => none

/-- Embedding of `Unique<Pack<PackTypes...>> : Unique_native<PackTypes...>`;
undefined (`none`) for non-`Pack` arguments. -/
def Unique {α : Type} [DecidableEq α] : Cxx α → Option Bool
  | Cxx.pack ts => some (Unique_native ts)
  | _ => none

/-- Helper: `Has_native` decides list membership. -/
theorem has_native_iff_mem {α : Type} [DecidableEq α] (x : α) :
    ∀ ts : List α, Has_native x ts = true ↔ x ∈ ts
  | [] => by simp [Has_native]
  | h :: t => by
      by_cases hx : x = h
      · simp [Has_native, hx]
      · simp [Has_native, hx, List.mem_cons, has_native_iff_mem x t]

/-- Helper: `Unique_native` decides absence of duplicate tokens. -/
theorem unique_native_iff_nodup {α : Type} [DecidableEq α] :
    ∀ l : List α, Unique_native l = true ↔ l.Nodup
  | [] => by simp [Unique_native]
  | [a] => by simp [Unique_native]
  | a :: b :: rest => by
      have h1 := unique_native_iff_nodup (a :: rest)
      have h2 := unique_native_iff_nodup (b :: rest)
      by_cases hab : a = b
      · subst hab
        simp [Unique_native]
      · rw [show Unique_native (a :: b :: rest) =
              (Unique_native (a :: rest) && Unique_native (b :: rest)) by
            simp [Unique_native, hab]]
        simp only [Bool.and_eq_true, h1, h2, List.nodup_cons, List.mem_cons]
        constructor
        · rintro ⟨⟨ha, hr⟩, hb, -⟩
          exact ⟨fun hc => (hc.elim hab ha), hb, hr⟩
        · rintro ⟨ha, hb, hr⟩
          exact ⟨⟨fun hc => ha (Or.inr hc), hr⟩, hb, hr⟩
termination_by l => l.length
decreasing_by
  all_goals simp [List.length_cons]

/-- Helper: in range, the `At_native` assertion holds. -/
theorem at_native_assert_of_lt {α : Type} :
    ∀ (ts : List α) (i : Nat), i < ts.length → At_native_assert i ts = true
  | _ :: _, 0, _ => rfl
  | _ :: t, i + 1, h =>
      at_native_assert_of_lt t i (Nat.lt_of_succ_lt_succ (by simpa using h))

/-- Helper: in range, `At_native` exposes exactly the constructed token. -/
theorem at_native_type_of_lt {α : Type} :
    ∀ (ts : List α) (i : Nat) (h : i < ts.length),
      At_native_type i ts = some (ts.get ⟨i, h⟩)
  | _ :: _, 0, _ => rfl
  | _ :: t, i + 1, h =>
      at_native_type_of_lt t i (Nat.lt_of_succ_lt_succ (by simpa using h))

/-- Helper: out of range, `At_native` exposes no `Type` member. -/
theorem at_native_type_of_ge {α : Type} :
    ∀ (ts : List α) (i : Nat), ts.length ≤ i → At_native_type i ts = none
  | [], i, _ => by cases i <;> rfl
  | _ :: t, 0, h => absurd h (by simp)
  | _ :: t, i + 1, h =>
      at_native_type_of_ge t i (Nat.le_of_succ_le_succ (by simpa using h))

/-- Helper: out of range, the sole `static_assert` reached is the one in the
empty base case, checking the residual index against `NotFound`. -/
theorem at_native_assert_of_ge {α : Type} :
    ∀ (ts : List α) (i : Nat), ts.length ≤ i →
      At_native_assert i ts = decide (i - ts.length = NotFound)
  | [], i, _ => by simp [At_native_assert]
  | _ :: t, 0, h => absurd h (by simp)
  | _ :: t, i + 1, h => by
      simpa [At_native_assert, Nat.succ_sub_succ] using
        at_native_assert_of_ge t i (Nat.le_of_succ_le_succ (by simpa using h))

/-- Helper: when the sought token is absent, the `Find` recursion bottoms out
at `NotFound` for every starting counter. -/
theorem find_impl_of_not_mem {α : Type} [DecidableEq α] (x : α) :
    ∀ (ts : List α) (c : Nat), x ∉ ts → internal.FindNativeImpl c x ts = NotFound
  | [], _, _ => rfl
  | h :: t, c, hx => by
      have hxh : ¬ x = h := fun he => hx (by simp [he])
      have hxt : x ∉ t := fun hm => hx (List.mem_cons_of_mem h hm)
      simpa [internal.FindNativeImpl, hxh] using
        find_impl_of_not_mem x t ((c + 1) % 2 ^ 64) hxt

/-- Helper: when the sought token is present and the counter cannot overflow,
the `Find` recursion returns the counter plus the offset of the first
occurrence, a position whose token is `x` and before which `x` never occurs. -/
theorem find_impl_of_mem {α : Type} [DecidableEq α] (x : α) :
    ∀ (ts : List α) (c : Nat), c + ts.length ≤ 2 ^ 64 → x ∈ ts →
      ∃ i, i < ts.length ∧ internal.FindNativeImpl c x ts = c + i ∧
        At_native_type i ts = some x ∧
        ∀ j, j < i → At_native_type j ts ≠ some x
  | h :: t, c, hb, hx => by
      by_cases hxh : x = h
      · refine ⟨0, by simp, ?_, ?_, ?_⟩
        · simp [internal.FindNativeImpl, hxh]
        · simp [At_native_type, hxh]
        · intro j hj
          exact absurd hj (Nat.not_lt_zero j)
      · have hxt : x ∈ t := (List.mem_cons.mp hx).resolve_left hxh
        have htpos : 0 < t.length := List.length_pos_of_mem hxt
        have hc1 : c + 1 < 2 ^ 64 := by
          simp [List.length_cons] at hb
          omega
        have hb' : (c + 1) + t.length ≤ 2 ^ 64 := by
          simp [List.length_cons] at hb
          omega
        obtain ⟨i, hi, hf, hat, hmin⟩ := find_impl_of_mem x t (c + 1) hb' hxt
        refine ⟨i + 1, by simpa [List.length_cons] using Nat.succ_lt_succ hi, ?_, ?_, ?_⟩
        · rw [show internal.FindNativeImpl c x (h :: t) =
                internal.FindNativeImpl ((c + 1) % 2 ^ 64) x t by
              simp [internal.FindNativeImpl, hxh]]
          rw [Nat.mod_eq_of_lt hc1, hf]
          omega
        · simpa [At_native_type] using hat
        · intro j hj
          match j with
          | 0 =>
              simp [At_native_type]
              exact fun he => hxh he.symm
          | j' + 1 =>
              simpa [At_native_type] using hmin j' (Nat.lt_of_succ_lt_succ hj)

/-- C1 (counterexample).  The claim says every index `N ≥ k` — including every
index applied to the Empty sequence — trips the out-of-range assertion.  At the
concrete input `N = NotFound` on the Empty sequence, the assertion
`static_assert(Index == NotFound, ...)` is satisfied, so the instantiation
raises no diagnostic: the claimed assertion failure does not occur. -/
theorem at_notfound_empty_no_assert_failure :
    ([] : List Tok).length ≤ NotFound
    ∧ ¬ At_native_assert NotFound ([] : List Tok) = false :=
  ⟨Nat.zero_le _, by decide⟩

/-- C1 (amended).  For every sequence of size `k` and every representable index
`N ≥ k`, the access exposes no result `Type`; the out-of-range condition is
checked only at the final Empty base case, whose assertion holds exactly in the
single case of the Empty sequence with `N = NotFound` (which therefore
instantiates without a diagnostic), and fails — a hard build-time error — for
every other out-of-range index. -/
theorem at_out_of_range_behavior {α : Type} (ts : List α) (i : Nat)
    (hk : ts.length ≤ i) (hi : i < 2 ^ 64) :
    At_native_type i ts = none
    ∧ (At_native_assert i ts = true ↔ (ts = [] ∧ i = NotFound)) := by
  refine ⟨at_native_type_of_ge ts i hk, ?_⟩
  rw [at_native_assert_of_ge ts i hk]
  simp only [decide_eq_true_eq, NotFound]
  constructor
  · intro h
    have hlen : ts.length = 0 := by omega
    exact ⟨List.length_eq_zero.mp hlen, by omega⟩
  · rintro ⟨h1, h2⟩
    subst h1
    simpa using h2

/-- C1 (witness). -/
theorem at_out_of_range_behavior_witness :
    ([Tok.int].length ≤ 3 ∧ 3 < 2 ^ 64)
    ∧ (At_native_type 3 [Tok.int] = none
       ∧ (At_native_assert 3 [Tok.int] = true ↔ ([Tok.int] = ([] : List Tok) ∧ 3 = NotFound))) :=
  ⟨⟨by decide, by decide⟩, at_out_of_range_behavior [Tok.int] 3 (by decide) (by decide)⟩

/-- C2.  The Empty base case of `At_native` guards with `Index == NotFound`: on
the empty token list the assertion holds exactly for `N = NotFound` (the
all-bits-set sentinel) and fires for every other index, and the `NotFound`
instantiation exposes no result `Type` member. -/
theorem at_empty_guard_iff_notfound {α : Type} :
    (∀ i : Nat, At_native_assert i ([] : List α) = true ↔ i = NotFound)
    ∧ At_native_type NotFound ([] : List α) = none := by
  constructor
  · intro i
    simp [At_native_assert]
  · exact at_native_type_of_ge [] NotFound (Nat.zero_le _)

/-- C3.  `Unique` is true iff no token occurs more than once (exact identity);
the Empty and single-token sequences are unique; and for two or more tokens it
agrees with the conjunction (a) first two tokens differ, (b) the first does not
recur in the remaining tail, (c) the second does not recur in the remaining
tail, (d) the tail excluding the first token is itself unique. -/
theorem unique_native_correct {α : Type} [DecidableEq α] :
    (∀ l : List α, Unique_native l = true ↔ ∀ x, l.count x ≤ 1)
    ∧ Unique_native ([] : List α) = true
    ∧ (∀ a : α, Unique_native [a] = true)
    ∧ (∀ (a b : α) (rest : List α),
        Unique_native (a :: b :: rest) = true ↔
          (a ≠ b ∧ a ∉ rest ∧ b ∉ rest ∧ Unique_native (b :: rest) = true)) := by
  refine ⟨?_, ?_, ?_, ?_⟩
  · intro l
    rw [unique_native_iff_nodup l, List.nodup_iff_count_le_one]
  · simp [Unique_native]
  · intro a
    simp [Unique_native]
  · intro a b rest
    rw [unique_native_iff_nodup, unique_native_iff_nodup]
    simp only [List.nodup_cons, List.mem_cons]
    constructor
    · rintro ⟨ha, hb, hr⟩
      exact ⟨fun he => ha (Or.inl he), fun hm => ha (Or.inr hm), hb, hb, hr⟩
    · rintro ⟨hne, ha, hb, -, hr⟩
      exact ⟨fun hc => hc.elim hne ha, hb, hr⟩

/-- C4.  `Has` agrees with `Find`: membership holds iff `Find` is not the
`NotFound` sentinel, and on success `At` at the found index is in range and
yields exactly the sought token. -/
theorem has_find_at_agree {α : Type} [DecidableEq α] (x : α) (ts : List α)
    (hlen : ts.length < 2 ^ 64) :
    (Has_native x ts = true ↔ Find_native x ts ≠ NotFound)
    ∧ (Has_native x ts = true →
        Find_native x ts < ts.length
        ∧ At_native_type (Find_native x ts) ts = some x) := by
  have hmem := has_native_iff_mem x ts
  by_cases hx : x ∈ ts
  · obtain ⟨i, hi, hf, hat, -⟩ := find_impl_of_mem x ts 0 (by omega) hx
    have hfind : Find_native x ts = i := by simpa using hf
    have hne : i ≠ NotFound := by
      simp only [NotFound]
      omega
    constructor
    · simp [hmem, hx, hfind, hne]
    · intro _
      rw [hfind]
      exact ⟨hi, hat⟩
  · have hfind : Find_native x ts = NotFound := find_impl_of_not_mem x ts 0 hx
    constructor
    · simp [hmem, hx, hfind]
    · intro hcon
      exact absurd (hmem.mp hcon) hx

/-- C4 (witness). -/
theorem has_find_at_agree_witness :
    [Tok.char, Tok.int].length < 2 ^ 64
    ∧ ((Has_native Tok.int [Tok.char, Tok.int] = true ↔
          Find_native Tok.int [Tok.char, Tok.int] ≠ NotFound)
       ∧ (Has_native Tok.int [Tok.char, Tok.int] = true →
            Find_native Tok.int [Tok.char, Tok.int] < [Tok.char, Tok.int].length
            ∧ At_native_type (Find_native Tok.int [Tok.char, Tok.int])
                [Tok.char, Tok.int] = some Tok.int)) :=
  ⟨by decide, has_find_at_agree Tok.int [Tok.char, Tok.int] (by decide)⟩

/-- C5.  `Find` is total: when the token is absent (in particular on the Empty
sequence) it returns the `NotFound` sentinel, and when present it returns an
in-range index whose token is the sought one and before which the token never
occurs — the first occurrence, so duplicates beyond it are irrelevant. -/
theorem find_first_occurrence_spec {α : Type} [DecidableEq α] (x : α)
    (ts : List α) (hlen : ts.length < 2 ^ 64) :
    (x ∉ ts → Find_native x ts = NotFound)
    ∧ (x ∈ ts → Find_native x ts < ts.length
        ∧ At_native_type (Find_native x ts) ts = some x
        ∧ ∀ j, j < Find_native x ts → At_native_type j ts ≠ some x)
    ∧ Find_native x ([] : List α) = NotFound := by
  refine ⟨fun hx => find_impl_of_not_mem x ts 0 hx, fun hx => ?_, rfl⟩
  obtain ⟨i, hi, hf, hat, hmin⟩ := find_impl_of_mem x ts 0 (by omega) hx
  have hfind : Find_native x ts = i := by simpa using hf
  rw [hfind]
  exact ⟨hi, hat, hmin⟩

/-- C5 (witness): on `(int, int)` the first occurrence (index 0) is returned. -/
theorem find_first_occurrence_spec_witness :
    [Tok.int, Tok.int].length < 2 ^ 64
    ∧ ((Tok.int ∉ [Tok.int, Tok.int] →
          Find_native Tok.int [Tok.int, Tok.int] = NotFound)
       ∧ (Tok.int ∈ [Tok.int, Tok.int] →
            Find_native Tok.int [Tok.int, Tok.int] < [Tok.int, Tok.int].length
            ∧ At_native_type (Find_native Tok.int [Tok.int, Tok.int])
                [Tok.int, Tok.int] = some Tok.int
            ∧ ∀ j, j < Find_native Tok.int [Tok.int, Tok.int] →
                At_native_type j [Tok.int, Tok.int] ≠ some Tok.int)
       ∧ Find_native Tok.int ([] : List Tok) = NotFound) :=
  ⟨by decide, find_first_occurrence_spec Tok.int [Tok.int, Tok.int] (by decide)⟩

/-- C6.  In range, `At` succeeds: the assertion holds and the exposed `Type` is
exactly the token placed at that position at construction, via the recursion
`At(0, Node(Head, Tail)) = Head`, `At(N, Node(Head, Tail)) = At(N-1, Tail)`. -/
theorem at_in_range_correct {α : Type} :
    ∀ (ts : List α) (i : Nat) (h : i < ts.length),
      At_native_assert i ts = true
      ∧ At_native_type i ts = some (ts.get ⟨i, h⟩) :=
  fun ts i h => ⟨at_native_assert_of_lt ts i h, at_native_type_of_lt ts i h⟩

/-- C6 (witness). -/
theorem at_in_range_correct_witness :
    1 < [Tok.int, Tok.char].length
    ∧ At_native_assert 1 [Tok.int, Tok.char] = true
    ∧ At_native_type 1 [Tok.int, Tok.char] = some Tok.char := by
  refine ⟨by decide, ?_, ?_⟩
  · exact (at_in_range_correct [Tok.int, Tok.char] 1 (by decide)).1
  · simpa using (at_in_range_correct [Tok.int, Tok.char] 1 (by decide)).2

/-- C7.  `Has` decides membership under exact token identity: true iff the
token occurs somewhere, false on the Empty sequence for every token, and a
reference-qualified variant of a token is a distinct token — replacing `int`
by `int&` in `(double, float, char, short, int, long)` flips `Has(int)` from
true to false. -/
theorem has_exact_identity_membership :
    (∀ (α : Type) [DecidableEq α] (x : α) (ts : List α),
        Has_native x ts = true ↔ x ∈ ts)
    ∧ (∀ (α : Type) [DecidableEq α] (x : α), Has_native x ([] : List α) = false)
    ∧ Has_native Tok.int
        [Tok.double, Tok.float, Tok.char, Tok.short, Tok.int, Tok.long] = true
    ∧ Has_native Tok.int
        [Tok.double, Tok.float, Tok.char, Tok.short, Tok.ref Tok.int, Tok.long] = false :=
  ⟨fun _ _ x ts => has_native_iff_mem x ts, fun _ _ _ => rfl, by decide, by decide⟩

/-- C8.  Uniqueness is invariant under permutation: reordering the tokens of a
sequence (keeping multiplicities) never changes the result of `Unique`. -/
theorem unique_perm_invariant {α : Type} [DecidableEq α] (l l' : List α)
    (h : List.Perm l l') : Unique_native l = Unique_native l' := by
  rw [Bool.eq_iff_iff, unique_native_iff_nodup, unique_native_iff_nodup]
  exact h.nodup_iff

/-- C8 (witness). -/
theorem unique_perm_invariant_witness :
    List.Perm [Tok.int, Tok.char, Tok.int] [Tok.int, Tok.int, Tok.char]
    ∧ Unique_native [Tok.int, Tok.char, Tok.int]
        = Unique_native [Tok.int, Tok.int, Tok.char] :=
  ⟨by decide,
   unique_perm_invariant [Tok.int, Tok.char, Tok.int] [Tok.int, Tok.int, Tok.char]
     (by decide)⟩

/-- C9.  Each wrapped query applied to the `Pack` built from a token list
produces exactly the result of the corresponding native query applied to the
inline token list: the wrapped specializations inherit from the native forms. -/
theorem wrapped_forwards_to_native {α : Type} [DecidableEq α] (ts : List α)
    (x : α) (i : Nat) :
    Size (Cxx.pack ts) = some (Size_native ts)
    ∧ At i (Cxx.pack ts) = some (At_native_assert i ts, At_native_type i ts)
    ∧ Has x (Cxx.pack ts) = some (Has_native x ts)
    ∧ Find x (Cxx.pack ts) = some (Find_native x ts)
    ∧ Unique (Cxx.pack ts) = some (Unique_native ts) :=
  ⟨rfl, rfl, rfl, rfl, rfl⟩

/-- C10.  `IsPack` holds exactly for types built via the `Pack` form itself,
and is false for anything else, including the superficially similar variadic
container `NotAPack` and any scalar type. -/
theorem ispack_iff_built_from_pack {α : Type} :
    (∀ X : Cxx α, IsPack X = true ↔ ∃ ts : List α, X = Cxx.pack ts)
    ∧ (∀ ts : List α, IsPack (Cxx.notAPack ts) = false)
    ∧ (∀ a : α, IsPack (Cxx.scalar a) = false) := by
  refine ⟨?_, fun _ => rfl, fun _ => rfl⟩
  intro X
  cases X with
  | scalar a =>
      simp [IsPack]
  | pack ts =>
      exact ⟨fun _ => ⟨ts, rfl⟩, fun _ => rfl⟩
  | notAPack ts =>
      simp [IsPack]

end packhelp
